import Mathlib

/-!
Verification of the dwani-ai proxy-server load balancer
(`src/server/load_balancer.py`) and the proxy variants
(`src/server/main.py`, `latest/src/server/main.py`).

The embedding models the module-level state of `load_balancer.py`:
the configured backend list `BACKEND_SERVERS`, the health dictionary
`server_health`, and the round-robin iterator `healthy_servers =
cycle(BACKEND_SERVERS)` (represented by a natural-number cursor taken
modulo the pool size).  The request-handling functions become pure
state-passing functions; the outcome of an outbound HTTP call (which
exception, if any, `httpx` raised) is an explicit parameter.
-/

/-- The health dictionary `server_health : Dict[str, bool]`, as an
association list, plus the list `BACKEND_SERVERS` and the position of
the `cycle` iterator `healthy_servers`. -/
structure Pool where
  servers : List String
  health : List (String × Bool)
  cursor : Nat
deriving Repr, DecidableEq

/-- Dictionary lookup `server_health.get(server, False)` with default
`False`. -/
def healthGet (p : Pool) (s : String) : Bool :=
  (p.health.lookup s).getD false

/-- Python `dict` assignment `d[k] = v`: replace the binding if the key
is present, otherwise append a new binding. -/
def dictSet {β : Type} (l : List (String × β)) (k : String) (v : β) :
    List (String × β) :=
  match l with
  | [] => [(k, v)]
  | (k', v') :: rest =>
      if k' = k then (k', v) :: rest else (k', v') :: dictSet rest k v

/-- Assignment `server_health[s] = b`. -/
def setHealth (p : Pool) (s : String) (b : Bool) : Pool :=
  { p with health := dictSet p.health s b }

/-- One step of the `cycle` iterator: `next(healthy_servers)` yields the
element at the cursor position modulo the pool size and advances the
cursor by one. -/
def cycleNext (p : Pool) : String × Pool :=
  (p.servers.getD (p.cursor % p.servers.length) "",
   { p with cursor := p.cursor + 1 })

/-- The loop body of `get_next_healthy_server`, with explicit fuel
(`for _ in range(len(BACKEND_SERVERS))`): draw the next server from the
cycle, return it if `server_health.get(server, False)`, else keep
going. -/
def getNextAux : Nat → Pool → Option String × Pool
  | 0, p => (none, p)
  | Nat.succ fuel, p =>
      let sp := cycleNext p
      if healthGet sp.2 sp.1 then (some sp.1, sp.2)
      else getNextAux fuel sp.2

/-- Selection `get_next_healthy_server()`: scan at most `len(BACKEND_SERVERS)`
positions of the cycle for a healthy server; raise
`HTTPException(503)` when none is found. -/
def get_next_healthy_server (p : Pool) : Except Nat String × Pool :=
  match getNextAux p.servers.length p with
  | (some s, p') => (Except.ok s, p')
  | (none, p') => (Except.error 503, p')

/-- The cumulative state after `i` successive calls to
`get_next_healthy_server`. -/
def selectCalls : Nat → Pool → Pool
  | 0, p => p
  | Nat.succ k, p => (get_next_healthy_server (selectCalls k p)).2

/-- Lowercasing as in Python `str.lower()` (ASCII headers). -/
def lowerAscii (s : String) : String := String.mk (s.data.map Char.toLower)

/-- The `httpx` response-header lookup `response.headers.get(k)`:
case-insensitive on the header name. -/
def headersGet (hs : List (String × String)) (k : String) :
    Option String :=
  (hs.find? (fun kv => lowerAscii kv.1 = lowerAscii k)).map (fun kv => kv.2)

/-- The backend's reply as seen through `httpx`: status code, header
list, raw body bytes. -/
structure BackendResponse where
  status_code : Nat
  headers : List (String × String)
  content : List Nat
deriving Repr, DecidableEq

/-- The arguments of the `fastapi.responses.Response(...)` returned to
the caller. -/
structure ClientResponse where
  content : List Nat
  status_code : Nat
  headers : List (String × String)
  media_type : String
deriving Repr, DecidableEq

/-- The success path of the forwarding handler:
`Response(content=response.content, status_code=response.status_code,
headers=dict(response.headers),
media_type=response.headers.get("content-type", "application/json"))`. -/
def relayResponse (r : BackendResponse) : ClientResponse :=
  { content := r.content
    status_code := r.status_code
    headers := r.headers
    media_type := (headersGet r.headers "content-type").getD "application/json" }

/-- Which of the `httpx` outcomes the outbound call produced: a
response, `httpx.TimeoutException`, `httpx.HTTPStatusError` (carrying
`e.response.status_code`), or another `httpx.RequestError`. -/
inductive CallOutcome where
  | success (r : BackendResponse)
  | timeoutExc
  | statusExc (code : Nat)
  | requestExc
deriving Repr, DecidableEq

/-- The try-except block of `load_balancer` around the outbound call:
relay the response on success; on `TimeoutException` set
`server_health[target_server] = False` and raise
`HTTPException(504)`; on `HTTPStatusError` raise with the backend's
own status code; on any other `RequestError` set
`server_health[target_server] = False` and raise
`HTTPException(500)`. -/
def forward (p : Pool) (target : String) :
    CallOutcome → Except Nat ClientResponse × Pool
  | CallOutcome.success r => (Except.ok (relayResponse r), p)
  | CallOutcome.timeoutExc => (Except.error 504, setHealth p target false)
  | CallOutcome.statusExc code => (Except.error code, p)
  | CallOutcome.requestExc => (Except.error 500, setHealth p target false)

/-- What one probe of one backend produced: a response (with its
status code) or a raised `httpx.RequestError`. -/
inductive ProbeOutcome where
  | response (status_code : Nat)
  | requestExc
deriving Repr, DecidableEq

/-- One iteration of the `health_check` loop for one server:
`server_health[server] = response.status_code == 200` on a response,
`server_health[server] = False` on `httpx.RequestError`. -/
def health_check_update (p : Pool) (s : String) : ProbeOutcome → Pool
  | ProbeOutcome.response code => setHealth p s (code == 200)
  | ProbeOutcome.requestExc => setHealth p s false

/-- The denylist in `src/server/load_balancer.py` and
`src/server/main.py`: `("host", "connection", "accept-encoding")`. -/
def headerDenylist : List String := ["host", "connection", "accept-encoding"]

/-- The denylist in `latest/src/server/main.py`:
`("host", "connection", "accept-encoding", "user-agent", "referer")`. -/
def headerDenylistLatest : List String :=
  ["host", "connection", "accept-encoding", "user-agent", "referer"]

/-- The dict comprehension
`{key: value for key, value in request.headers.items()
  if key.lower() not in deny}`. -/
def forwardHeaders (deny : List String) (hs : List (String × String)) :
    List (String × String) :=
  hs.foldl
    (fun acc kv =>
      if deny.contains (lowerAscii kv.1) then acc
      else dictSet acc kv.1 kv.2) []

/-- Characters allowed after the first in a URL scheme
(`urllib.parse.scheme_chars`). -/
def isSchemeChar (c : Char) : Bool :=
  c.isAlpha || c.isDigit || c = '+' || c = '-' || c = '.'

/-- Split a character list at the first `:`; `none` when there is no
colon. -/
def splitOnColon : List Char → Option (List Char × List Char)
  | [] => none
  | c :: rest =>
      if c = ':' then some ([], rest)
      else
        match splitOnColon rest with
        | none => none
        | some (pre, post) => some (c :: pre, post)

/-- CPython `urlparse(url)` restricted to the two fields the startup check
reads: the scheme (recognised only when the text before the first
colon is a letter followed by scheme characters, lowercased as CPython
does) and the netloc (present only when the remainder starts with
`//`, extending to the first `/`, `?` or `#`). -/
def urlparseSchemeNetloc (s : String) : String × String :=
  let cs := s.data
  let schemeRest : List Char × List Char :=
    match splitOnColon cs with
    | some (pre, post) =>
        match pre with
        | [] => ([], cs)
        | c0 :: crest =>
            if c0.isAlpha && crest.all isSchemeChar then
              (pre.map Char.toLower, post)
            else ([], cs)
    | none => ([], cs)
  let netloc : List Char :=
    match schemeRest.2 with
    | '/' :: '/' :: r =>
        r.takeWhile (fun c => !(c = '/' || c = '?' || c = '#'))
    | _ => []
  (String.mk schemeRest.1, String.mk netloc)

/-- The per-entry startup check
`all([result.scheme, result.netloc])`: both the scheme and the netloc
must be non-empty (Python string truthiness). -/
def validServerUrl (s : String) : Bool :=
  let p := urlparseSchemeNetloc s
  decide (p.1 ≠ "") && decide (p.2 ≠ "")

/-- Python `s.split(",")` over the character list, with an accumulator
for the current field. -/
def splitCommasAux : List Char → List Char → List (List Char)
  | [], acc => [acc.reverse]
  | c :: rest, acc =>
      if c = ',' then acc.reverse :: splitCommasAux rest []
      else splitCommasAux rest (c :: acc)

/-- The split `BACKEND_SERVERS_ENV.split(",")`. -/
def splitCommas (s : String) : List String :=
  (splitCommasAux s.data []).map String.mk

/-- The whitespace characters stripped by Python `str.strip()` (ASCII
subset). -/
def isPyWhitespace (c : Char) : Bool :=
  c = ' ' || c = '\t' || c = '\n' || c = '\r' ||
    c = Char.ofNat 11 || c = Char.ofNat 12

/-- Python `server.strip()`. -/
def pyStrip (s : String) : String :=
  String.mk
    (((s.data.dropWhile isPyWhitespace).reverse.dropWhile
        isPyWhitespace).reverse)

/-- Module-level startup parsing of the `BACKEND_SERVERS` environment
variable: missing or empty variable is fatal; the value is split on
commas, entries are stripped, *empty entries are dropped*; an empty
resulting list is fatal; a remaining entry failing the urlparse check
is fatal (`ValueError` propagates and the process does not start). -/
def parseBackendServers (env : Option String) :
    Except String (List String) :=
  match env with
  | none => Except.error "BACKEND_SERVERS is required"
  | some sv =>
      if sv = "" then Except.error "BACKEND_SERVERS is required"
      else
        let servers :=
          ((splitCommas sv).map pyStrip).filter (fun s => s ≠ "")
        if servers.isEmpty then
          Except.error "No valid backend servers found"
        else if servers.all validServerUrl then Except.ok servers
        else Except.error "Invalid server URL"

/-- Whether module import (process startup) fails. -/
def startupFails (r : Except String (List String)) : Bool :=
  match r with
  | Except.error _ => true
  | Except.ok _ => false

/-- Python truthiness test `not api_key` on an optional string: true
for `None` and for the empty string. -/
def pyFalsy : Option String → Bool
  | none => true
  | some s => decide (s = "")

/-- Extraction `get_api_key(request)`: read the `X-API-Key` header; if falsy,
read the `api_key` query parameter; if still falsy, raise
`HTTPException(400)`; otherwise return the value.  The two inputs are
`request.headers.get("X-API-Key")` and
`request.query_params.get("api_key")`. -/
def get_api_key (headerVal queryVal : Option String) :
    Except Nat String :=
  let api_key := if pyFalsy headerVal then queryVal else headerVal
  if pyFalsy api_key then Except.error 400
  else Except.ok (api_key.getD "")

theorem cycleNext_health (p : Pool) (s : String) :
    healthGet (cycleNext p).2 s = healthGet p s := rfl

theorem getNextAux_servers (fuel : Nat) (p : Pool) :
    (getNextAux fuel p).2.servers = p.servers := by
  induction fuel generalizing p with
  | zero => rfl
  | succ n ih =>
      simp only [getNextAux]
      split
      · rfl
      · exact ih _

theorem getNextAux_health (fuel : Nat) (p : Pool) :
    (getNextAux fuel p).2.health = p.health := by
  induction fuel generalizing p with
  | zero => rfl
  | succ n ih =>
      simp only [getNextAux]
      split
      · rfl
      · exact ih _

/-- The returned server is marked healthy and was drawn from the server
list (when the list is nonempty every drawn element is a member). -/
theorem getNextAux_some (fuel : Nat) (p : Pool) (s : String)
    (h : (getNextAux fuel p).1 = some s) :
    healthGet p s = true ∧
      (0 < p.servers.length → s ∈ p.servers) := by
  induction fuel generalizing p with
  | zero => simp [getNextAux] at h
  | succ n ih =>
      simp only [getNextAux] at h
      split at h
      · rename_i hh
        cases h
        refine ⟨hh, fun hpos => ?_⟩
        show p.servers.getD (p.cursor % p.servers.length) "" ∈ p.servers
        rw [List.getD_eq_getElem _ _ (Nat.mod_lt _ hpos)]
        exact List.getElem_mem _
      · have := ih _ h
        simpa [cycleNext, healthGet] using this

theorem getNextAux_cursor_of_none (fuel : Nat) (p : Pool)
    (h : (getNextAux fuel p).1 = none) :
    (getNextAux fuel p).2.cursor = p.cursor + fuel := by
  induction fuel generalizing p with
  | zero => rfl
  | succ n ih =>
      simp only [getNextAux] at h ⊢
      split at h
      · simp at h
      · rename_i hh
        split
        · rename_i htrue; exact absurd htrue hh
        · have := ih _ h
          simp only [cycleNext] at this ⊢
          omega

theorem getNextAux_unhealthy_of_none (fuel : Nat) (p : Pool)
    (h : (getNextAux fuel p).1 = none) :
    ∀ i < fuel,
      healthGet p (p.servers.getD ((p.cursor + i) % p.servers.length) "")
        = false := by
  induction fuel generalizing p with
  | zero => intro i hi; omega
  | succ n ih =>
      simp only [getNextAux] at h
      split at h
      · simp at h
      · rename_i hh
        intro i hi
        cases i with
        | zero =>
            simpa [cycleNext, healthGet] using hh
        | succ i =>
            have := ih _ h i (by omega)
            simp only [cycleNext] at this
            have harr : p.cursor + (i + 1) = p.cursor + 1 + i := by omega
            rw [harr]
            exact this

theorem getNextAux_none_of_unhealthy (fuel : Nat) (p : Pool)
    (hpos : 0 < p.servers.length)
    (h : ∀ s ∈ p.servers, healthGet p s = false) :
    (getNextAux fuel p).1 = none := by
  induction fuel generalizing p with
  | zero => rfl
  | succ n ih =>
      simp only [getNextAux]
      have hmem : p.servers.getD (p.cursor % p.servers.length) "" ∈ p.servers := by
        rw [List.getD_eq_getElem _ _ (Nat.mod_lt _ hpos)]
        exact List.getElem_mem _
      rw [if_neg (by simpa [cycleNext, healthGet] using h _ hmem)]
      exact ih _ hpos (by simpa [cycleNext, healthGet] using h)

/-- Starting from any cursor `c`, a full pass of `n` consecutive cycle
positions covers every index `j < n`. -/
theorem exists_cursor_offset (n c j : Nat) (hn : 0 < n) (hj : j < n) :
    ∃ i, i < n ∧ (c + i) % n = j := by
  refine ⟨(n - c % n + j) % n, Nat.mod_lt _ hn, ?_⟩
  rw [Nat.add_mod_mod]
  have h2 := Nat.div_add_mod c n
  have h3 : c % n < n := Nat.mod_lt _ hn
  have h1 : c + (n - c % n + j) = n * (c / n + 1) + j := by
    rw [Nat.mul_add, Nat.mul_one]
    generalize n * (c / n) = m at h2 ⊢
    omega
  rw [h1, Nat.mul_add_mod, Nat.mod_eq_of_lt hj]

/-- C1: `get_next_healthy_server` returns only a backend that is a
member of the configured pool and currently marked healthy in
`server_health`; it raises `HTTPException(503)` exactly when every
configured backend is marked unhealthy; being a pure function of the
pool state it is deterministic, and in the 503 case it leaves the
servers and health registry untouched and the rotation cursor at the
same position modulo the pool size (no net change to the selection
state). -/
theorem C1_next_healthy_or_503 (p : Pool) :
    (∀ s, (get_next_healthy_server p).1 = Except.ok s →
        s ∈ p.servers ∧ healthGet p s = true) ∧
    ((get_next_healthy_server p).1 = Except.error 503 ↔
        ∀ s ∈ p.servers, healthGet p s = false) ∧
    ((get_next_healthy_server p).1 = Except.error 503 →
        (get_next_healthy_server p).2.servers = p.servers ∧
        (get_next_healthy_server p).2.health = p.health ∧
        (get_next_healthy_server p).2.cursor % p.servers.length
          = p.cursor % p.servers.length) := by
  refine ⟨?_, ⟨?_, ?_⟩, ?_⟩
  · intro s hs
    unfold get_next_healthy_server at hs
    rcases hres : getNextAux p.servers.length p with ⟨o, p'⟩
    rw [hres] at hs
    cases o with
    | none => simp at hs
    | some t =>
        simp only at hs
        cases hs
        have h1 : (getNextAux p.servers.length p).1 = some s := by
          rw [hres]
        have h2 := getNextAux_some _ _ _ h1
        have hpos : 0 < p.servers.length := by
          by_contra hle
          have hz : p.servers.length = 0 := by omega
          rw [hz] at h1
          simp [getNextAux] at h1
        exact ⟨h2.2 hpos, h2.1⟩
  · intro herr s hs
    unfold get_next_healthy_server at herr
    rcases hres : getNextAux p.servers.length p with ⟨o, p'⟩
    rw [hres] at herr
    cases o with
    | some t => simp at herr
    | none =>
        have h1 : (getNextAux p.servers.length p).1 = none := by rw [hres]
        have hall := getNextAux_unhealthy_of_none _ _ h1
        obtain ⟨j, hj, hget⟩ := List.getElem_of_mem hs
        have hpos : 0 < p.servers.length := by omega
        obtain ⟨i, hi, hmod⟩ := exists_cursor_offset p.servers.length p.cursor j hpos hj
        have := hall i hi
        rw [hmod, List.getD_eq_getElem _ _ hj, hget] at this
        exact this
  · intro hall
    unfold get_next_healthy_server
    by_cases hpos : 0 < p.servers.length
    · have := getNextAux_none_of_unhealthy p.servers.length p hpos hall
      rcases hres : getNextAux p.servers.length p with ⟨o, p'⟩
      rw [hres] at this
      simp only at this
      subst this
      rfl
    · have hz : p.servers.length = 0 := by omega
      rw [hz]
      rfl
  · intro herr
    unfold get_next_healthy_server at herr ⊢
    rcases hres : getNextAux p.servers.length p with ⟨o, p'⟩
    cases o with
    | some t => rw [hres] at herr; simp at herr
    | none =>
        have h1 : (getNextAux p.servers.length p).1 = none := by rw [hres]
        have hs := getNextAux_servers p.servers.length p
        have hh := getNextAux_health p.servers.length p
        have hc := getNextAux_cursor_of_none _ _ h1
        rw [hres] at hs hh hc
        exact ⟨hs, hh, by rw [hc, Nat.add_mod_right]⟩

/-- Witness for C1 at a concrete pool with both backends unhealthy. -/
theorem C1_next_healthy_or_503_witness :
    (get_next_healthy_server ⟨["http://a", "http://b"],
        [("http://a", false), ("http://b", false)], 0⟩).1
      = Except.error 503 :=
  ((C1_next_healthy_or_503 _).2.1).mpr (by decide)

/-- When every configured backend is healthy, one call returns the
backend at the cursor position and advances the cursor by exactly
one. -/
theorem next_of_all_healthy (p : Pool) (hn : 0 < p.servers.length)
    (hall : ∀ s ∈ p.servers, healthGet p s = true) :
    get_next_healthy_server p =
      (Except.ok (p.servers.getD (p.cursor % p.servers.length) ""),
       { p with cursor := p.cursor + 1 }) := by
  have hmem : p.servers.getD (p.cursor % p.servers.length) "" ∈ p.servers := by
    rw [List.getD_eq_getElem _ _ (Nat.mod_lt _ hn)]
    exact List.getElem_mem _
  obtain ⟨m, hm⟩ : ∃ m, p.servers.length = m + 1 :=
    ⟨p.servers.length - 1, by omega⟩
  have hstep : getNextAux p.servers.length p =
      (some (p.servers.getD (p.cursor % p.servers.length) ""),
       { p with cursor := p.cursor + 1 }) := by
    have hcond : healthGet (cycleNext p).2 (cycleNext p).1 = true :=
      hall _ hmem
    rw [hm]
    simp only [getNextAux]
    rw [if_pos hcond, ← hm]
    rfl
  unfold get_next_healthy_server
  rw [hstep]

/-- With all backends healthy, after `i` calls only the cursor has
moved, by exactly `i` positions. -/
theorem selectCalls_all_healthy (p : Pool) (hn : 0 < p.servers.length)
    (hall : ∀ s ∈ p.servers, healthGet p s = true) (i : Nat) :
    selectCalls i p = { p with cursor := p.cursor + i } := by
  induction i with
  | zero => rfl
  | succ k ih =>
      show (get_next_healthy_server (selectCalls k p)).2 = _
      rw [ih, next_of_all_healthy { p with cursor := p.cursor + k } hn hall]
      rfl

/-- C2: for every pool of size ≥ 1 with all backends marked healthy,
over `k` successive calls the selector behaves as strict round-robin
with period equal to the pool size: before the `i`-th call the cursor
has advanced by exactly `i` (one position per examination), the `i`-th
call returns the backend at index `(start + i) mod pool size`, and the
call advances the cursor by exactly one more position. -/
theorem C2_round_robin (p : Pool) (hn : 0 < p.servers.length)
    (hall : ∀ s ∈ p.servers, healthGet p s = true) (k i : Nat)
    (hik : i < k) :
    (selectCalls i p).cursor = p.cursor + i ∧
    (get_next_healthy_server (selectCalls i p)).1 =
      Except.ok (p.servers.getD ((p.cursor + i) % p.servers.length) "") ∧
    (get_next_healthy_server (selectCalls i p)).2.cursor =
      (selectCalls i p).cursor + 1 := by
  have hsel := selectCalls_all_healthy p hn hall i
  rw [hsel, next_of_all_healthy { p with cursor := p.cursor + i } hn hall]
  exact ⟨rfl, rfl, rfl⟩

/-- Witness for C2: pool of three healthy backends, the call after four
earlier calls (cursor started at 0) returns the backend at index
`4 mod 3 = 1`. -/
theorem C2_round_robin_witness :
    (get_next_healthy_server (selectCalls 4
        ⟨["http://a", "http://b", "http://c"],
         [("http://a", true), ("http://b", true), ("http://c", true)],
         0⟩)).1 = Except.ok "http://b" :=
  (C2_round_robin ⟨["http://a", "http://b", "http://c"],
      [("http://a", true), ("http://b", true), ("http://c", true)], 0⟩
    (by decide) (by decide) 5 4 (by decide)).2.1

theorem lookup_dictSet_self {β : Type} (l : List (String × β))
    (k : String) (v : β) : (dictSet l k v).lookup k = some v := by
  induction l with
  | nil => simp [dictSet, List.lookup]
  | cons kv rest ih =>
      rcases kv with ⟨k', v'⟩
      by_cases h : k' = k
      · subst h
        simp [dictSet, List.lookup]
      · have hbeq : (k == k') = false := by
          rw [beq_eq_false_iff_ne]
          exact fun he => h he.symm
        simp only [dictSet, if_neg h, List.lookup, hbeq]
        exact ih

theorem healthGet_setHealth_self (p : Pool) (s : String) (b : Bool) :
    healthGet (setHealth p s b) s = b := by
  simp [healthGet, setHealth, lookup_dictSet_self]

theorem setHealth_servers (p : Pool) (s : String) (b : Bool) :
    (setHealth p s b).servers = p.servers := rfl

/-- C3: on the success path the caller receives the backend's status
code, header set and body bytes unmodified, and the media type is the
backend's own content-type header when one is present, defaulting to
`application/json` only when the backend omitted it. -/
theorem C3_relay_unmodified (r : BackendResponse) :
    (relayResponse r).status_code = r.status_code ∧
    (relayResponse r).headers = r.headers ∧
    (relayResponse r).content = r.content ∧
    (headersGet r.headers "content-type" = none →
      (relayResponse r).media_type = "application/json") ∧
    (∀ v, headersGet r.headers "content-type" = some v →
      (relayResponse r).media_type = v) := by
  refine ⟨rfl, rfl, rfl, ?_, ?_⟩
  · intro h
    simp [relayResponse, h]
  · intro v h
    simp [relayResponse, h]

/-- Witness for C3: a backend 201 whose body is the bytes of
`"id":1` in braces reaches the caller as a 201 with the same bytes,
and with the JSON default media type since the backend sent no
content-type. -/
theorem C3_relay_unmodified_witness :
    (relayResponse ⟨201, [("x-extra", "y")],
        [123, 34, 105, 100, 34, 58, 49, 125]⟩).status_code = 201 ∧
    (relayResponse ⟨201, [("x-extra", "y")],
        [123, 34, 105, 100, 34, 58, 49, 125]⟩).content =
      [123, 34, 105, 100, 34, 58, 49, 125] ∧
    (relayResponse ⟨201, [("x-extra", "y")],
        [123, 34, 105, 100, 34, 58, 49, 125]⟩).media_type =
      "application/json" := by
  have h := C3_relay_unmodified
    ⟨201, [("x-extra", "y")], [123, 34, 105, 100, 34, 58, 49, 125]⟩
  exact ⟨h.1, h.2.2.1, h.2.2.2.1 (by decide)⟩

/-- C4: when the outbound call for a forwarded request times out, the
handler sets the target backend's flag in `server_health` to false,
reports `HTTPException(504)` to the caller, and the next call to
`get_next_healthy_server` on the resulting state cannot return that
backend. -/
theorem C4_timeout_marks_unhealthy (p : Pool) (s : String) :
    (forward p s CallOutcome.timeoutExc).1 = Except.error 504 ∧
    healthGet (forward p s CallOutcome.timeoutExc).2 s = false ∧
    ∀ r, (get_next_healthy_server
        (forward p s CallOutcome.timeoutExc).2).1 = Except.ok r →
      r ≠ s := by
  refine ⟨rfl, healthGet_setHealth_self p s false, ?_⟩
  intro r hr he
  have h1 : (getNextAux
      ((forward p s CallOutcome.timeoutExc).2).servers.length
      (forward p s CallOutcome.timeoutExc).2).1 = some r := by
    unfold get_next_healthy_server at hr
    rcases hres : getNextAux
        ((forward p s CallOutcome.timeoutExc).2).servers.length
        (forward p s CallOutcome.timeoutExc).2 with ⟨o, p''⟩
    rw [hres] at hr
    cases o with
    | none => simp at hr
    | some t =>
        simp only at hr
        cases hr
        rfl
  have h2 := (getNextAux_some _ _ _ h1).1
  have h3 : healthGet (forward p s CallOutcome.timeoutExc).2 s = false :=
    healthGet_setHealth_self p s false
  rw [he, h3] at h2
  exact Bool.false_ne_true h2

/-- Witness for C4 at a concrete two-backend pool: after a timeout on
backend a, the caller sees 504, a is unhealthy, and the next selection
returns b. -/
theorem C4_timeout_marks_unhealthy_witness :
    (forward ⟨["http://a", "http://b"],
        [("http://a", true), ("http://b", true)], 0⟩
      "http://a" CallOutcome.timeoutExc).1 = Except.error 504 ∧
    healthGet (forward ⟨["http://a", "http://b"],
        [("http://a", true), ("http://b", true)], 0⟩
      "http://a" CallOutcome.timeoutExc).2 "http://a" = false := by
  have h := C4_timeout_marks_unhealthy
    ⟨["http://a", "http://b"], [("http://a", true), ("http://b", true)], 0⟩
    "http://a"
  exact ⟨h.1, h.2.1⟩

/-- C6: when the backend itself answers with an HTTP error status
(4xx/5xx) the caller receives the backend's own status code and no
backend's health flag changes: on the success path (the code never
calls `raise_for_status`, so an error-status response arrives as an
ordinary response) the whole pool state is returned untouched, and the
dead `HTTPStatusError` branch likewise relays the carried status code
and leaves the pool untouched. -/
theorem C6_backend_error_relayed (p : Pool) (s : String)
    (r : BackendResponse) (h4 : 400 ≤ r.status_code)
    (h6 : r.status_code < 600) :
    ((forward p s (CallOutcome.success r)).1 =
        Except.ok (relayResponse r) ∧
      (relayResponse r).status_code = r.status_code ∧
      (forward p s (CallOutcome.success r)).2 = p) ∧
    (∀ code, (forward p s (CallOutcome.statusExc code)).1 =
        Except.error code ∧
      (forward p s (CallOutcome.statusExc code)).2 = p) :=
  ⟨⟨rfl, rfl, rfl⟩, fun _ => ⟨rfl, rfl⟩⟩

/-- Witness for C6: a backend 404 is relayed as 404 and the health
dictionary is untouched. -/
theorem C6_backend_error_relayed_witness :
    (relayResponse ⟨404, [], []⟩).status_code = 404 ∧
    (forward ⟨["http://a"], [("http://a", true)], 0⟩ "http://a"
        (CallOutcome.success ⟨404, [], []⟩)).2 =
      ⟨["http://a"], [("http://a", true)], 0⟩ :=
  ⟨(C6_backend_error_relayed ⟨["http://a"], [("http://a", true)], 0⟩
      "http://a" ⟨404, [], []⟩ (by decide) (by decide)).1.2.1,
   (C6_backend_error_relayed ⟨["http://a"], [("http://a", true)], 0⟩
      "http://a" ⟨404, [], []⟩ (by decide) (by decide)).1.2.2⟩

/-- Counterexample to C5 as stated: 204 is a 200-class (2xx) status,
yet the probe marks the backend unhealthy, because the code tests
`response.status_code == 200`, not membership in the 2xx class. -/
theorem C5_counterexample :
    (200 ≤ 204 ∧ 204 < 300) ∧
    healthGet (health_check_update ⟨["http://a"], [("http://a", true)], 0⟩
        "http://a" (ProbeOutcome.response 204)) "http://a" = false := by
  constructor
  · exact ⟨by decide, by decide⟩
  · decide

/-- C5 (amended): a probe response with status exactly 200 sets the
backend's health flag to true; a response with any other status, or
any transport failure (`httpx.RequestError`), sets it to false. -/
theorem C5_probe_updates_health (p : Pool) (s : String) :
    (∀ code, healthGet
        (health_check_update p s (ProbeOutcome.response code)) s
          = (code == 200)) ∧
    healthGet (health_check_update p s ProbeOutcome.requestExc) s
      = false :=
  ⟨fun code => healthGet_setHealth_self p s (code == 200),
   healthGet_setHealth_self p s false⟩

/-- Witness for C5 (amended): a 200 probe on a previously unhealthy
backend marks it healthy again. -/
theorem C5_probe_updates_health_witness :
    healthGet (health_check_update ⟨["http://a"], [("http://a", false)], 0⟩
        "http://a" (ProbeOutcome.response 200)) "http://a" = true :=
  (C5_probe_updates_health
    ⟨["http://a"], [("http://a", false)], 0⟩ "http://a").1 200

theorem mem_dictSet {β : Type} (l : List (String × β)) (k : String)
    (v : β) (kv : String × β) :
    kv ∈ dictSet l k v → kv = (k, v) ∨ kv ∈ l := by
  induction l with
  | nil => intro h; simpa [dictSet] using h
  | cons kv' rest ih =>
      intro h
      rcases kv' with ⟨k', v'⟩
      by_cases he : k' = k
      · subst he
        simp only [dictSet, if_pos rfl] at h
        rcases List.mem_cons.mp h with h1 | h1
        · exact Or.inl h1
        · exact Or.inr (List.mem_cons_of_mem _ h1)
      · simp only [dictSet, if_neg he] at h
        rcases List.mem_cons.mp h with h1 | h1
        · exact Or.inr (List.mem_cons.mpr (Or.inl h1))
        · rcases ih h1 with h2 | h2
          · exact Or.inl h2
          · exact Or.inr (List.mem_cons_of_mem _ h2)

theorem self_mem_dictSet {β : Type} (l : List (String × β)) (k : String)
    (v : β) : (k, v) ∈ dictSet l k v := by
  induction l with
  | nil => simp [dictSet]
  | cons kv' rest ih =>
      rcases kv' with ⟨k', v'⟩
      by_cases he : k' = k
      · subst he; simp [dictSet]
      · simp only [dictSet, if_neg he]
        exact List.mem_cons_of_mem _ ih

theorem mem_dictSet_of_mem_of_ne {β : Type} (l : List (String × β))
    (k k' : String) (v v' : β) (hne : k' ≠ k) :
    (k, v) ∈ l → (k, v) ∈ dictSet l k' v' := by
  induction l with
  | nil => intro h; simp at h
  | cons kv rest ih =>
      intro h
      rcases kv with ⟨k'', v''⟩
      by_cases he : k'' = k'
      · subst he
        simp only [dictSet, if_pos rfl]
        rcases List.mem_cons.mp h with h1 | h1
        · exact absurd (congrArg Prod.fst h1).symm hne
        · exact List.mem_cons_of_mem _ h1
      · simp only [dictSet, if_neg he]
        rcases List.mem_cons.mp h with h1 | h1
        · exact List.mem_cons.mpr (Or.inl h1)
        · exact List.mem_cons_of_mem _ (ih h1)

/-- Every entry of the filtered-and-rebuilt header dict has a key whose
lowercase form is outside the denylist. -/
theorem forwardHeaders_mem_not_denied (deny : List String)
    (hs : List (String × String)) :
    ∀ kv ∈ forwardHeaders deny hs, deny.contains (lowerAscii kv.1) = false := by
  suffices hgen : ∀ acc : List (String × String),
      (∀ kv ∈ acc, deny.contains (lowerAscii kv.1) = false) →
      ∀ kv ∈ hs.foldl
        (fun acc kv =>
          if deny.contains (lowerAscii kv.1) then acc
          else dictSet acc kv.1 kv.2) acc,
        deny.contains (lowerAscii kv.1) = false by
    exact hgen [] (by simp)
  induction hs with
  | nil => intro acc hacc kv hkv; exact hacc kv hkv
  | cons kv0 rest ih =>
      intro acc hacc kv hkv
      simp only [List.foldl_cons] at hkv
      by_cases hd : deny.contains (lowerAscii kv0.1)
      · rw [if_pos hd] at hkv
        exact ih acc hacc kv hkv
      · rw [if_neg hd] at hkv
        refine ih _ ?_ kv hkv
        intro kv' hkv'
        rcases mem_dictSet _ _ _ _ hkv' with h1 | h1
        · rw [h1]
          simpa using hd
        · exact hacc kv' h1

theorem foldl_headers_preserve (deny : List String) :
    ∀ (hs : List (String × String)) (k v : String)
      (acc : List (String × String)),
    (k, v) ∈ acc → k ∉ hs.map Prod.fst →
    (k, v) ∈ hs.foldl
      (fun acc kv =>
        if deny.contains (lowerAscii kv.1) then acc
        else dictSet acc kv.1 kv.2) acc := by
  intro hs
  induction hs with
  | nil => intro k v acc hacc _; simpa using hacc
  | cons kv0 rest ih =>
      intro k v acc hacc hnin
      simp only [List.foldl_cons]
      have hne : kv0.1 ≠ k := by
        intro he
        apply hnin
        simp only [List.map_cons, List.mem_cons]
        exact Or.inl he.symm
      have hnin' : k ∉ rest.map Prod.fst := by
        intro hmem
        apply hnin
        simp only [List.map_cons, List.mem_cons]
        exact Or.inr hmem
      by_cases hd : deny.contains (lowerAscii kv0.1)
      · rw [if_pos hd]
        exact ih k v acc hacc hnin'
      · rw [if_neg hd]
        exact ih k v _
          (mem_dictSet_of_mem_of_ne acc k kv0.1 v kv0.2 hne hacc) hnin'

theorem foldl_headers_mem (deny : List String) :
    ∀ (hs : List (String × String)) (k v : String)
      (acc : List (String × String)),
    (hs.map Prod.fst).Nodup → (k, v) ∈ hs →
    deny.contains (lowerAscii k) = false →
    (k, v) ∈ hs.foldl
      (fun acc kv =>
        if deny.contains (lowerAscii kv.1) then acc
        else dictSet acc kv.1 kv.2) acc := by
  intro hs
  induction hs with
  | nil => intro k v acc _ hmem _; simp at hmem
  | cons kv0 rest ih =>
      intro k v acc hnod hmem hallow
      simp only [List.foldl_cons]
      have hnod' : (rest.map Prod.fst).Nodup := by
        simp only [List.map_cons, List.nodup_cons] at hnod
        exact hnod.2
      rcases List.mem_cons.mp hmem with h1 | h1
      · rcases kv0 with ⟨k0, v0⟩
        injection h1 with hk hv
        subst hk
        subst hv
        rw [if_neg (by rw [hallow]; exact Bool.false_ne_true)]
        apply foldl_headers_preserve
        · exact self_mem_dictSet acc k v
        · simp only [List.map_cons, List.nodup_cons] at hnod
          exact hnod.1
      · by_cases hd : deny.contains (lowerAscii kv0.1)
        · rw [if_pos hd]
          exact ih k v acc hnod' h1 hallow
        · rw [if_neg hd]
          exact ih k v _ hnod' h1 hallow

/-- C7: for both variants' denylists, a header whose lowercased name is
`host` or `connection` never appears in the outbound header dict, while
any inbound header (under distinct inbound names, as in a dict) whose
lowercased name is not on the denylist appears in the outbound dict
with its value unchanged. -/
theorem C7_header_denylist (hs : List (String × String)) :
    (∀ k v, (k, v) ∈ forwardHeaders headerDenylist hs →
        lowerAscii k ≠ "host" ∧ lowerAscii k ≠ "connection") ∧
    (∀ k v, (hs.map Prod.fst).Nodup → (k, v) ∈ hs →
        headerDenylist.contains (lowerAscii k) = false →
        (k, v) ∈ forwardHeaders headerDenylist hs) ∧
    (∀ k v, (k, v) ∈ forwardHeaders headerDenylistLatest hs →
        lowerAscii k ≠ "host" ∧ lowerAscii k ≠ "connection") ∧
    (∀ k v, (hs.map Prod.fst).Nodup → (k, v) ∈ hs →
        headerDenylistLatest.contains (lowerAscii k) = false →
        (k, v) ∈ forwardHeaders headerDenylistLatest hs) := by
  refine ⟨?_, ?_, ?_, ?_⟩
  · intro k v hmem
    have hnd := forwardHeaders_mem_not_denied headerDenylist hs (k, v) hmem
    constructor
    · intro he
      rw [he] at hnd
      simp [headerDenylist] at hnd
    · intro he
      rw [he] at hnd
      simp [headerDenylist] at hnd
  · intro k v hnod hmem hallow
    exact foldl_headers_mem headerDenylist hs k v [] hnod hmem hallow
  · intro k v hmem
    have hnd := forwardHeaders_mem_not_denied headerDenylistLatest hs
      (k, v) hmem
    constructor
    · intro he
      rw [he] at hnd
      simp [headerDenylistLatest] at hnd
    · intro he
      rw [he] at hnd
      simp [headerDenylistLatest] at hnd
  · intro k v hnod hmem hallow
    exact foldl_headers_mem headerDenylistLatest hs k v [] hnod hmem hallow

/-- Witness for C7: from headers `Host: x`, `Connection: keep-alive`,
`Content-Type: application/json`, content-type passes through with its
value unchanged and the Host entry is absent from the outbound dict. -/
theorem C7_header_denylist_witness :
    ("Content-Type", "application/json") ∈
      forwardHeaders headerDenylist
        [("Host", "x"), ("Connection", "keep-alive"),
         ("Content-Type", "application/json")] ∧
    ("Host", "x") ∉
      forwardHeaders headerDenylist
        [("Host", "x"), ("Connection", "keep-alive"),
         ("Content-Type", "application/json")] := by
  constructor
  · exact (C7_header_denylist
      [("Host", "x"), ("Connection", "keep-alive"),
       ("Content-Type", "application/json")]).2.1
      "Content-Type" "application/json" (by decide) (by decide) (by decide)
  · intro hmem
    have := ((C7_header_denylist
      [("Host", "x"), ("Connection", "keep-alive"),
       ("Content-Type", "application/json")]).1 "Host" "x" hmem).1
    exact this (by decide)

/-- Counterexample to C8 as stated: the pool string
`http://a.com,,http://b.com` contains an empty entry, yet startup
succeeds — the empty entry is silently dropped by the comprehension
`[server.strip() for server in ... if server.strip()]` rather than
being a fatal configuration error. -/
theorem C8_counterexample :
    parseBackendServers (some "http://a.com,,http://b.com") =
      Except.ok ["http://a.com", "http://b.com"] := by
  rfl

/-- C8 (amended): a *malformed non-empty* entry (one the urlparse check
rejects for lacking a scheme or host) is a startup-time fatal error, a
missing or effectively empty pool variable is a startup-time fatal
error, and every pool accepted at startup consists of non-empty
entries passing the urlparse check; *empty entries*, however, are
silently dropped at startup rather than being fatal. -/
theorem C8_config_validation (env : String) :
    startupFails (parseBackendServers none) = true ∧
    (((splitCommas env).map pyStrip).filter (fun s => s ≠ "") = [] →
      startupFails (parseBackendServers (some env)) = true) ∧
    (∀ entry,
      entry ∈ ((splitCommas env).map pyStrip).filter (fun s => s ≠ "") →
      validServerUrl entry = false →
      startupFails (parseBackendServers (some env)) = true) ∧
    (∀ servers, parseBackendServers (some env) = Except.ok servers →
      ∀ s ∈ servers, validServerUrl s = true ∧ s ≠ "") := by
  refine ⟨rfl, ?_, ?_, ?_⟩
  · intro hempt
    by_cases hsv : env = ""
    · simp [parseBackendServers, hsv, startupFails]
    · simp only [parseBackendServers, if_neg hsv, hempt]
      rfl
  · intro entry hentry hbad
    by_cases hsv : env = ""
    · simp [parseBackendServers, hsv, startupFails]
    · simp only [parseBackendServers, if_neg hsv]
      have hne : ((splitCommas env).map pyStrip).filter
          (fun s => s ≠ "") ≠ [] := by
        intro hnil
        rw [hnil] at hentry
        simp at hentry
      rw [if_neg (by simpa [List.isEmpty_iff] using hne)]
      have hall : (((splitCommas env).map pyStrip).filter
          (fun s => s ≠ "")).all validServerUrl = false := by
        rw [List.all_eq_false]
        refine ⟨entry, hentry, ?_⟩
        rw [hbad]
        exact Bool.false_ne_true
      rw [if_neg (by rw [hall]; exact Bool.false_ne_true)]
      rfl
  · intro servers hok s hs
    by_cases hsv : env = ""
    · simp [parseBackendServers, hsv] at hok
    · simp only [parseBackendServers, if_neg hsv] at hok
      by_cases hempt : (((splitCommas env).map pyStrip).filter
          (fun s => s ≠ "")).isEmpty
      · rw [if_pos hempt] at hok
        simp at hok
      · rw [if_neg hempt] at hok
        by_cases hall : (((splitCommas env).map pyStrip).filter
            (fun s => s ≠ "")).all validServerUrl
        · rw [if_pos hall] at hok
          injection hok with hok'
          subst hok'
          refine ⟨List.all_eq_true.mp hall s hs, ?_⟩
          have := List.of_mem_filter hs
          simpa using this
        · rw [if_neg hall] at hok
          simp at hok

/-- Witness for C8 (amended): the entry `not-a-url` lacks a scheme and
host, and a pool string containing it is fatal at startup. -/
theorem C8_config_validation_witness :
    startupFails (parseBackendServers
      (some "http://a.com,not-a-url")) = true :=
  (C8_config_validation "http://a.com,not-a-url").2.2.1 "not-a-url"
    (by decide) (by decide)

/-- Counterexample to C9 as stated: with the `X-API-Key` header present
but carrying the empty string and the `api_key` query parameter set to
`k`, the function returns the query value `k`, not the present
header's value (the empty string): presence alone does not make the
header win. -/
theorem C9_counterexample :
    (Option.isSome (some "") = true) ∧
    get_api_key (some "") (some "k") = Except.ok "k" ∧
    "k" ≠ "" := by
  refine ⟨rfl, rfl, by decide⟩

/-- C9 (amended): the extractor returns the designated header's value
when the header is present with a non-empty value; otherwise it
returns the designated query parameter's value when that is present
with a non-empty value; and when both are absent or empty it raises
`HTTPException(400)` (`MissingCredential`). -/
theorem C9_api_key_extraction (h q : Option String) :
    (∀ v, h = some v → v ≠ "" → get_api_key h q = Except.ok v) ∧
    (pyFalsy h = true → ∀ v, q = some v → v ≠ "" →
      get_api_key h q = Except.ok v) ∧
    (pyFalsy h = true → pyFalsy q = true →
      get_api_key h q = Except.error 400) := by
  refine ⟨?_, ?_, ?_⟩
  · intro v hv hne
    subst hv
    have hf : pyFalsy (some v) = false := by
      simp [pyFalsy, hne]
    simp [get_api_key, hf]
  · intro hf v hv hne
    subst hv
    have hf' : pyFalsy (some v) = false := by
      simp [pyFalsy, hne]
    simp [get_api_key, hf, hf']
  · intro hf hq
    simp [get_api_key, hf, hq]

/-- Witness for C9 (amended): a non-empty header wins, the query
fallback works, and two missing credentials give a 400. -/
theorem C9_api_key_extraction_witness :
    get_api_key (some "k1") (some "k2") = Except.ok "k1" ∧
    get_api_key none (some "k2") = Except.ok "k2" ∧
    get_api_key none none = Except.error 400 :=
  ⟨(C9_api_key_extraction (some "k1") (some "k2")).1 "k1" rfl (by decide),
   (C9_api_key_extraction none (some "k2")).2.1 rfl "k2" rfl (by decide),
   (C9_api_key_extraction none none).2.2 rfl rfl⟩

/-- C10: a present-but-empty `X-API-Key` header is treated exactly as
an absent header — the extractor behaves identically on
`some ""` and `none`; when the fallback query parameter is also absent
or empty the call raises `HTTPException(400)`; and no call ever
returns the empty string as the extracted key. -/
theorem C10_empty_header_like_absent :
    (∀ q, get_api_key (some "") q = get_api_key none q) ∧
    (∀ q, pyFalsy q = true →
      get_api_key (some "") q = Except.error 400) ∧
    (∀ h q v, get_api_key h q = Except.ok v → v ≠ "") := by
  refine ⟨fun q => rfl, ?_, ?_⟩
  · intro q hq
    show (if pyFalsy q then Except.error 400
        else Except.ok (q.getD "")) = Except.error 400
    rw [hq]
    rfl
  · intro h q v hok hveq
    subst hveq
    simp only [get_api_key] at hok
    generalize ha : (if pyFalsy h = true then q else h) = a at hok
    by_cases hf : pyFalsy a = true
    · rw [if_pos hf] at hok
      exact Except.noConfusion hok
    · rw [if_neg hf] at hok
      injection hok with he
      rcases a with _ | s
      · exact hf rfl
      · apply hf
        have hs : s = "" := by simpa using he
        simp [pyFalsy, hs]

/-- Witness for C10: the empty-header/empty-query request is refused
with 400 and matches the absent-header behaviour. -/
theorem C10_empty_header_like_absent_witness :
    get_api_key (some "") (some "") = get_api_key none (some "") ∧
    get_api_key (some "") (some "") = Except.error 400 :=
  ⟨C10_empty_header_like_absent.1 (some ""),
   C10_empty_header_like_absent.2.1 (some "") (by decide)⟩
